import Mathlib

/-!
Shallow embedding of the InkFlow stroke engine: raw input samples, simulated
pressure, taper profile, outline generation, SVG path serialization, and the
pointer-up commit policy, together with theorems about them.

Coordinates and pressures are modelled as real numbers; `Math.hypot` becomes
`Real.sqrt` of the sum of squares.  Fields that are optional in the source
(`pressure`, `time`) are `Option ℝ`.
-/

namespace InkFlow

/-- A raw input sample: position, optional pressure, optional timestamp. -/
structure Point where
  x : ℝ
  y : ℝ
  pressure : Option ℝ := none
  time : Option ℝ := none

instance : Inhabited Point := ⟨⟨0, 0, none, none⟩⟩

/-- A plain 2D vector (a position or an offset without sample metadata);
the vector helpers of the source construct `{x, y}` objects of this shape. -/
structure V2 where
  x : ℝ
  y : ℝ

instance : Inhabited V2 := ⟨⟨0, 0⟩⟩

/-- The position of a sample as a vector. -/
def pos (p : Point) : V2 := ⟨p.x, p.y⟩

/-- Stroke rendering settings. -/
structure StrokeSettings where
  size : ℝ
  thinning : ℝ
  smoothing : ℝ
  color : String
  simulatePressure : Bool

/-- Distance between two samples: `Math.hypot(a.x - b.x, a.y - b.y)`. -/
noncomputable def dist (a b : Point) : ℝ :=
  Real.sqrt ((a.x - b.x) ^ 2 + (a.y - b.y) ^ 2)

/-- Linear interpolation between two values: `a + (b - a) * t`. -/
def lerp (a b t : ℝ) : ℝ := a + (b - a) * t

/-- Vector addition. -/
def add (a b : V2) : V2 := ⟨a.x + b.x, a.y + b.y⟩

/-- Vector subtraction. -/
def sub (a b : V2) : V2 := ⟨a.x - b.x, a.y - b.y⟩

/-- Multiplication of a vector by a scalar. -/
def mul (a : V2) (n : ℝ) : V2 := ⟨a.x * n, a.y * n⟩

/-- The perpendicular vector: `(x, y) ↦ (y, -x)`. -/
def perp (a : V2) : V2 := ⟨a.y, -a.x⟩

/-- Euclidean norm of a vector: `Math.hypot(a.x, a.y)`. -/
noncomputable def vnorm (a : V2) : ℝ := Real.sqrt (a.x ^ 2 + a.y ^ 2)

/-- Normalization of a vector; a zero vector normalizes to `(0, 0)` by the
source's explicit guard rather than failing. -/
noncomputable def normalize (a : V2) : V2 :=
  if vnorm a = 0 then ⟨0, 0⟩ else ⟨a.x / vnorm a, a.y / vnorm a⟩

/-- The taper factor applied multiplicatively to the pressure at index `i` of
`n` total points: `taperLength = min 5 (n / 3)`, with a cubic ease-out
`1 - (1 - t)^3` over the leading window `i < taperLength` and, mirrored, over
the trailing window `i > n - 1 - taperLength`, and `1` in between.  The
trailing comparison is over the integers, as in the source's untruncated
arithmetic. -/
noncomputable def taperFactor (i n : ℕ) : ℝ :=
  let taperLength := min 5 (n / 3)
  if i < taperLength then
    1 - (1 - (i : ℝ) / (taperLength : ℝ)) ^ 3
  else if (n : ℤ) - 1 - (taperLength : ℤ) < (i : ℤ) then
    1 - (1 - ((n : ℝ) - 1 - (i : ℝ)) / (taperLength : ℝ)) ^ 3
  else 1

/-- Stroke width at a point: `size * (1 - thinning * (1 - pressure))`. -/
def strokeWidth (size thinning pressure : ℝ) : ℝ :=
  size * (1 - thinning * (1 - pressure))

/-- The seed of the running smoothed pressure: `points[0].pressure || 0.5`.
JavaScript `||` treats `0` as falsy, so both a missing pressure and a
pressure equal to `0` yield `0.5`. -/
noncomputable def seedPressure (points : List Point) : ℝ :=
  match (points.getD 0 default).pressure with
  | none => 0.5
  | some p => if p = 0 then 0.5 else p

/-- The loop body of `getStrokeOutlinePoints`, emitting for each index `i`
the pair (left offset point, right offset point) while threading the running
smoothed pressure and the previous direction vector. -/
noncomputable def strokePairs (pts : List Point) (size thinning prevPressure : ℝ)
    (prevVector : V2) (i : ℕ) : List (V2 × V2) :=
  if h : i < pts.length then
    let curr := pts.getD i default
    let pressure := lerp prevPressure
      (((curr.pressure).getD 0.5) * taperFactor i pts.length) 0.5
    let width := strokeWidth size thinning pressure
    let vector := if i + 1 < pts.length then
        normalize (sub (pos (pts.getD (i + 1) default)) (pos curr))
      else prevVector
    let smoothVector := normalize (add vector prevVector)
    let offset := mul (perp smoothVector) (width / 2)
    (sub (pos curr) offset, add (pos curr) offset) ::
      strokePairs pts size thinning pressure vector (i + 1)
  else []
termination_by pts.length - i
decreasing_by omega

/-- The outline generator: for fewer than two points the outline is empty;
otherwise the left offset points in order followed by the right offset points
reversed, seeded with `points[0].pressure || 0.5` and the normalized vector
from the first to the second point. -/
noncomputable def getStrokeOutlinePoints (points : List Point)
    (options : StrokeSettings) : List V2 :=
  if points.length < 2 then []
  else
    let pairs := strokePairs points options.size options.thinning
      (seedPressure points)
      (normalize (sub (pos (points.getD 1 default)) (pos (points.getD 0 default)))) 0
    pairs.map Prod.fst ++ (pairs.map Prod.snd).reverse

/-- One SVG path command, as appended to the path string. -/
inductive PathCmd where
  | move (p : V2)
  | quad (control anchor : V2)
  | closePath

/-- Whether a path command is a quadratic curve segment. -/
def PathCmd.isQuad : PathCmd → Bool
  | .quad _ _ => true
  | _ => false

/-- The SVG path built from an outline: empty for an empty outline, otherwise
`M` at the first point, then for each index `1 ≤ i < len` a quadratic segment
with control `pts[i]` and anchor the midpoint of `pts[i]` and
`pts[(i+1) % len]`, then `Z`.  The numeric `toFixed(2)` formatting of the
string output is abstracted away; each command carries the exact points. -/
noncomputable def getSvgPathFromStroke (strokePoints : List V2) : List PathCmd :=
  if strokePoints.length = 0 then []
  else
    let len := strokePoints.length
    (PathCmd.move (strokePoints.getD 0 default) ::
      (List.range' 1 (len - 1)).map (fun i =>
        let p1 := strokePoints.getD i default
        let p2 := strokePoints.getD ((i + 1) % len) default
        PathCmd.quad p1 ⟨(p1.x + p2.x) / 2, (p1.y + p2.y) / 2⟩)) ++
    [PathCmd.closePath]

/-- The pointer-sample constructor of the canvas component, with the canvas
rectangle already subtracted from the client coordinates.  When the device
pressure is the neutral `0` or `0.5` it is simulated from the velocity against
the last buffered point: `d / (dt || 1)` with `dt = t - (last.time || 0)`,
clamped through `max 0.1 (min 1 (1 - min velocity 2.5 / 2.5))`; with an empty
buffer the simulated pressure is `0.5`; any other device pressure is kept. -/
noncomputable def getPoint (x y rawPressure t : ℝ) (pointsBuffer : List Point) :
    Point :=
  let pressure :=
    if rawPressure = 0 ∨ rawPressure = 0.5 then
      if 0 < pointsBuffer.length then
        let last := pointsBuffer.getD (pointsBuffer.length - 1) default
        let d := Real.sqrt ((x - last.x) ^ 2 + (y - last.y) ^ 2)
        let dt := t - (last.time).getD 0
        let velocity := d / (if dt = 0 then 1 else dt)
        let maxV : ℝ := 2.5
        let normalizedV := min velocity maxV / maxV
        max 0.1 (min 1 (1 - normalizedV))
      else 0.5
    else rawPressure
  { x := x, y := y, pressure := some pressure, time := some t }

/-- The drawing tool. -/
inductive ToolType where
  | PEN
  | ERASER
deriving DecidableEq

/-- A committed stroke. -/
structure DrawnStroke where
  points : List Point
  color : String
  settings : StrokeSettings

/-- The drawing-relevant state of the canvas component: whether a stroke is in
progress, its accumulated points, and the committed stroke history. -/
structure CanvasState where
  isDrawing : Bool
  currentPoints : List Point
  history : List DrawnStroke

/-- Pointer-up: if a stroke is in progress, stop drawing, append it to the
history iff it has more than one point, and clear the in-progress points. -/
def handlePointerUp (s : CanvasState) (tool : ToolType)
    (settings : StrokeSettings) : CanvasState :=
  if !s.isDrawing then s
  else
    { isDrawing := false
      currentPoints := []
      history :=
        if 1 < s.currentPoints.length then
          s.history ++ [{ points := s.currentPoints
                          color := if tool = ToolType.ERASER then "eraser"
                                   else settings.color
                          settings := settings }]
        else s.history }

/-! ### Closed forms for the loop state of `strokePairs` -/

/-- The direction vector the loop uses at index `i`: the normalized vector to
the next point, or, at the last index, the previous iteration's vector (which
is the normalized vector between the last two points). -/
noncomputable def dirVec (pts : List Point) (i : ℕ) : V2 :=
  if i + 1 < pts.length then
    normalize (sub (pos (pts.getD (i + 1) default)) (pos (pts.getD i default)))
  else
    normalize (sub (pos (pts.getD (pts.length - 1) default))
      (pos (pts.getD (pts.length - 2) default)))

/-- The smoothed (two-tap averaged, renormalized) direction vector at index
`i`; at index `0` both taps are the seed vector. -/
noncomputable def smoothAt (pts : List Point) (i : ℕ) : V2 :=
  normalize (add (dirVec pts i) (dirVec pts (i - 1)))

/-- The per-point raw pressure with the loop's default: `curr.pressure ?? 0.5`
(nullish coalescing, so a present `0` stays `0`). -/
noncomputable def rawPressureAt (pts : List Point) (i : ℕ) : ℝ :=
  ((pts.getD i default).pressure).getD 0.5

/-- The tapered pressure at index `i`. -/
noncomputable def taperedPressureAt (pts : List Point) (i : ℕ) : ℝ :=
  rawPressureAt pts i * taperFactor i pts.length

/-- The running smoothed pressure: entry `0` is the seed, and entry `i + 1` is
the smoothed pressure after processing index `i`. -/
noncomputable def smoothedPressureAux (pts : List Point) : ℕ → ℝ
  | 0 => seedPressure pts
  | i + 1 => lerp (smoothedPressureAux pts i) (taperedPressureAt pts i) 0.5

/-- The offset from input point `i` to its two outline points. -/
noncomputable def offsetAt (pts : List Point) (size thinning : ℝ) (i : ℕ) : V2 :=
  mul (perp (smoothAt pts i))
    (strokeWidth size thinning (smoothedPressureAux pts (i + 1)) / 2)

/-- Distance between two vectors. -/
noncomputable def vdist (a b : V2) : ℝ :=
  Real.sqrt ((a.x - b.x) ^ 2 + (a.y - b.y) ^ 2)

/-! ### Basic lemmas -/

theorem strokePairs_nil (pts : List Point) (s t pp : ℝ) (pv : V2) (i : ℕ)
    (h : ¬ i < pts.length) : strokePairs pts s t pp pv i = [] := by
  rw [strokePairs, dif_neg h]

theorem strokePairs_length (pts : List Point) (s t : ℝ) :
    ∀ k i pp pv, pts.length - i = k →
      (strokePairs pts s t pp pv i).length = k := by
  intro k
  induction k with
  | zero =>
    intro i pp pv hk
    rw [strokePairs, dif_neg (by omega)]
    rfl
  | succ k ih =>
    intro i pp pv hk
    rw [strokePairs, dif_pos (by omega)]
    simp only [List.length_cons]
    rw [ih (i + 1) _ _ (by omega)]

theorem vnorm_nonneg (a : V2) : 0 ≤ vnorm a := Real.sqrt_nonneg _

theorem vnorm_eq_zero_iff (a : V2) : vnorm a = 0 ↔ a = ⟨0, 0⟩ := by
  unfold vnorm
  rw [Real.sqrt_eq_zero (by positivity)]
  constructor
  · intro h
    have hx : a.x = 0 := by nlinarith [sq_nonneg a.x, sq_nonneg a.y]
    have hy : a.y = 0 := by nlinarith [sq_nonneg a.x, sq_nonneg a.y]
    cases a
    simp_all
  · rintro rfl
    norm_num

theorem normalize_of_vnorm_zero (a : V2) (h : vnorm a = 0) :
    normalize a = ⟨0, 0⟩ := by
  rw [normalize, if_pos h]

theorem normalize_eq_zero_iff (a : V2) : normalize a = ⟨0, 0⟩ ↔ a = ⟨0, 0⟩ := by
  by_cases h : vnorm a = 0
  · simp only [normalize, if_pos h, true_iff]
    exact (vnorm_eq_zero_iff a).mp h
  · rw [normalize, if_neg h]
    constructor
    · intro he
      have hx : a.x / vnorm a = 0 := congrArg V2.x he
      have hy : a.y / vnorm a = 0 := congrArg V2.y he
      rw [div_eq_zero_iff] at hx hy
      cases a
      simp_all
    · rintro rfl
      exact absurd ((vnorm_eq_zero_iff _).mpr rfl) h

theorem vnorm_normalize (a : V2) (h : vnorm a ≠ 0) : vnorm (normalize a) = 1 := by
  have hd : vnorm a ^ 2 = a.x ^ 2 + a.y ^ 2 :=
    Real.sq_sqrt (by positivity)
  rw [normalize, if_neg h]
  show Real.sqrt ((a.x / vnorm a) ^ 2 + (a.y / vnorm a) ^ 2) = 1
  have hq : (a.x / vnorm a) ^ 2 + (a.y / vnorm a) ^ 2 = 1 := by
    field_simp
    linarith [hd]
  rw [hq, Real.sqrt_one]

theorem vnorm_perp (a : V2) : vnorm (perp a) = vnorm a := by
  unfold vnorm perp
  congr 1
  ring

theorem vnorm_mul (a : V2) (c : ℝ) : vnorm (mul a c) = |c| * vnorm a := by
  unfold vnorm mul
  rw [show (a.x * c) ^ 2 + (a.y * c) ^ 2 = c ^ 2 * (a.x ^ 2 + a.y ^ 2) from by ring,
    Real.sqrt_mul (sq_nonneg c), Real.sqrt_sq_eq_abs]

theorem vdist_sub_self (c o : V2) : vdist (sub c o) c = vnorm o := by
  unfold vdist sub vnorm
  congr 1
  ring

theorem vdist_add_self (c o : V2) : vdist (add c o) c = vnorm o := by
  unfold vdist add vnorm
  congr 1
  ring

/-! ### Characterization of the outline loop -/

theorem dirVec_step (pts : List Point) (hn : 2 ≤ pts.length) (i : ℕ)
    (hi : i < pts.length) :
    (if i + 1 < pts.length then
        normalize (sub (pos (pts.getD (i + 1) default)) (pos (pts.getD i default)))
      else dirVec pts (i - 1)) = dirVec pts i := by
  by_cases h : i + 1 < pts.length
  · rw [if_pos h, dirVec, if_pos h]
  · rw [if_neg h]
    have h1 : i - 1 + 1 = pts.length - 1 := by omega
    have h2 : i - 1 = pts.length - 2 := by omega
    rw [dirVec, if_pos (by omega), h1, h2]
    rw [dirVec, if_neg h]

theorem strokePairs_getD (pts : List Point) (s t : ℝ) (hn : 2 ≤ pts.length) :
    ∀ j i, i + j < pts.length →
      (strokePairs pts s t (smoothedPressureAux pts i) (dirVec pts (i - 1)) i).getD j
          (⟨0, 0⟩, ⟨0, 0⟩) =
        (sub (pos (pts.getD (i + j) default)) (offsetAt pts s t (i + j)),
         add (pos (pts.getD (i + j) default)) (offsetAt pts s t (i + j))) := by
  intro j
  induction j with
  | zero =>
    intro i hij
    rw [strokePairs, dif_pos (by omega)]
    simp only [List.getD_cons_zero, Nat.add_zero]
    rw [dirVec_step pts hn i (by omega)]
    simp only [offsetAt, smoothAt, smoothedPressureAux, taperedPressureAt, rawPressureAt]
  | succ j ih =>
    intro i hij
    rw [strokePairs, dif_pos (by omega)]
    simp only [List.getD_cons_succ]
    rw [dirVec_step pts hn i (by omega)]
    have hp : lerp (smoothedPressureAux pts i)
        (((pts.getD i default).pressure).getD 0.5 * taperFactor i pts.length) 0.5 =
        smoothedPressureAux pts (i + 1) := rfl
    rw [hp]
    have hv : dirVec pts i = dirVec pts (i + 1 - 1) := by
      rw [Nat.add_sub_cancel]
    rw [hv]
    have := ih (i + 1) (by omega)
    rw [show i + 1 + j = i + (j + 1) from by omega] at this
    exact this

theorem seed_vector_eq (points : List Point) (hn : 2 ≤ points.length) :
    normalize (sub (pos (points.getD 1 default)) (pos (points.getD 0 default))) =
      dirVec points (0 - 1) := by
  rw [Nat.zero_sub, dirVec, if_pos (by omega)]

theorem outline_getD_left (points : List Point) (options : StrokeSettings)
    (hn : 2 ≤ points.length) (i : ℕ) (hi : i < points.length) :
    (getStrokeOutlinePoints points options).getD i ⟨0, 0⟩ =
      sub (pos (points.getD i default))
        (offsetAt points options.size options.thinning i) := by
  simp only [getStrokeOutlinePoints, if_neg (by omega : ¬ points.length < 2)]
  rw [seed_vector_eq points hn,
    show seedPressure points = smoothedPressureAux points 0 from rfl]
  have hlen : (strokePairs points options.size options.thinning
      (smoothedPressureAux points 0) (dirVec points (0 - 1)) 0).length =
      points.length :=
    strokePairs_length _ _ _ points.length 0 _ _ (by omega)
  rw [List.getD_eq_getElem _ _ (by
    simp only [List.length_append, List.length_map, List.length_reverse, hlen]
    omega)]
  rw [List.getElem_append_left (by simp only [List.length_map, hlen]; exact hi)]
  rw [List.getElem_map]
  have := strokePairs_getD points options.size options.thinning hn i 0 (by omega)
  rw [Nat.zero_add] at this
  rw [← List.getD_eq_getElem _ (⟨0, 0⟩, ⟨0, 0⟩) (by rw [hlen]; exact hi), this]

theorem outline_getD_right (points : List Point) (options : StrokeSettings)
    (hn : 2 ≤ points.length) (i : ℕ) (hi : i < points.length) :
    (getStrokeOutlinePoints points options).getD (2 * points.length - 1 - i) ⟨0, 0⟩ =
      add (pos (points.getD i default))
        (offsetAt points options.size options.thinning i) := by
  simp only [getStrokeOutlinePoints, if_neg (by omega : ¬ points.length < 2)]
  rw [seed_vector_eq points hn,
    show seedPressure points = smoothedPressureAux points 0 from rfl]
  have hlen : (strokePairs points options.size options.thinning
      (smoothedPressureAux points 0) (dirVec points (0 - 1)) 0).length =
      points.length :=
    strokePairs_length _ _ _ points.length 0 _ _ (by omega)
  rw [List.getD_eq_getElem _ _ (by
    simp only [List.length_append, List.length_map, List.length_reverse, hlen]
    omega)]
  rw [List.getElem_append_right (by simp only [List.length_map, hlen]; omega)]
  rw [List.getElem_reverse]
  rw [List.getElem_map]
  have := strokePairs_getD points options.size options.thinning hn i 0 (by omega)
  rw [Nat.zero_add] at this
  have hidx : (List.map Prod.snd (strokePairs points options.size options.thinning
      (smoothedPressureAux points 0) (dirVec points (0 - 1)) 0)).length - 1 -
      (2 * points.length - 1 - i -
        (List.map Prod.fst (strokePairs points options.size options.thinning
          (smoothedPressureAux points 0) (dirVec points (0 - 1)) 0)).length) = i := by
    simp only [List.length_map, hlen]
    omega
  rw [← List.getD_eq_getElem _ (⟨0, 0⟩, ⟨0, 0⟩)
    (by simp only [List.length_map, hlen]; omega), hidx, this]

/-! ### Claim C1 -/

/-- Claim C1: `getStrokeOutlinePoints` returns the empty outline when given
fewer than two points, and otherwise an outline of length exactly twice the
number of input points (one left and one right offset point per input
point). -/
theorem C1_outline_length (points : List Point) (options : StrokeSettings) :
    (points.length < 2 → getStrokeOutlinePoints points options = []) ∧
    (2 ≤ points.length →
      (getStrokeOutlinePoints points options).length = 2 * points.length) := by
  constructor
  · intro h
    rw [getStrokeOutlinePoints, if_pos h]
  · intro h
    simp only [getStrokeOutlinePoints, if_neg (by omega : ¬ points.length < 2)]
    simp only [List.length_append, List.length_map, List.length_reverse]
    rw [strokePairs_length points options.size options.thinning points.length 0 _ _
      (by omega)]
    omega

/-- Witness for C1 at a one-point and a two-point input. -/
theorem C1_outline_length_witness :
    getStrokeOutlinePoints [⟨0, 0, none, none⟩] ⟨2, 0, 0.5, "ink", true⟩ = [] ∧
    (getStrokeOutlinePoints [⟨0, 0, none, none⟩, ⟨1, 0, none, none⟩]
      ⟨2, 0, 0.5, "ink", true⟩).length = 2 * 2 := by
  constructor
  · exact (C1_outline_length [⟨0, 0, none, none⟩] ⟨2, 0, 0.5, "ink", true⟩).1
      (by simp)
  · exact (C1_outline_length [⟨0, 0, none, none⟩, ⟨1, 0, none, none⟩]
      ⟨2, 0, 0.5, "ink", true⟩).2 (by simp)

/-! ### Claim C10 -/

/-- Claim C10: for at least two input points, the two outline points generated
from input point `i` are symmetric about it:
`outline[i] + outline[2n-1-i] = 2 · points[i]`. -/
theorem C10_outline_symmetry (points : List Point) (options : StrokeSettings)
    (hn : 2 ≤ points.length) (i : ℕ) (hi : i < points.length) :
    add ((getStrokeOutlinePoints points options).getD i ⟨0, 0⟩)
        ((getStrokeOutlinePoints points options).getD
          (2 * points.length - 1 - i) ⟨0, 0⟩) =
      mul (pos (points.getD i default)) 2 := by
  rw [outline_getD_left points options hn i hi,
    outline_getD_right points options hn i hi]
  simp only [add, sub, mul, V2.mk.injEq]
  constructor <;> ring

/-- Witness for C10 at a concrete two-point stroke and index `0`. -/
theorem C10_outline_symmetry_witness :
    add ((getStrokeOutlinePoints [⟨0, 0, none, none⟩, ⟨1, 0, none, none⟩]
          ⟨2, 0, 0.5, "ink", true⟩).getD 0 ⟨0, 0⟩)
        ((getStrokeOutlinePoints [⟨0, 0, none, none⟩, ⟨1, 0, none, none⟩]
          ⟨2, 0, 0.5, "ink", true⟩).getD 3 ⟨0, 0⟩) =
      mul (pos (([⟨0, 0, none, none⟩, ⟨1, 0, none, none⟩] :
          List Point).getD 0 default)) 2 :=
  C10_outline_symmetry [⟨0, 0, none, none⟩, ⟨1, 0, none, none⟩]
    ⟨2, 0, 0.5, "ink", true⟩ (by simp) 0 (by simp)

/-! ### Claim C2 -/

/-- Claim C2: the serializer yields the empty path on the empty outline, and
on an outline of length `L ≥ 1` it emits exactly `L - 1` quadratic curve
segments — the one at path position `i` (for `1 ≤ i < L`) having control point
`outline[i]` and anchor the midpoint of `outline[i]` and
`outline[(i+1) % L]` — followed by one closing instruction. -/
theorem C2_serializer (strokePoints : List V2) :
    (strokePoints = [] → getSvgPathFromStroke strokePoints = []) ∧
    (strokePoints ≠ [] →
      (getSvgPathFromStroke strokePoints).countP (fun c => c.isQuad) =
          strokePoints.length - 1 ∧
      (getSvgPathFromStroke strokePoints).getLast? = some PathCmd.closePath ∧
      ∀ i, 1 ≤ i → i < strokePoints.length →
        (getSvgPathFromStroke strokePoints).getD i PathCmd.closePath =
          PathCmd.quad (strokePoints.getD i ⟨0, 0⟩)
            ⟨((strokePoints.getD i ⟨0, 0⟩).x +
                (strokePoints.getD ((i + 1) % strokePoints.length) ⟨0, 0⟩).x) / 2,
             ((strokePoints.getD i ⟨0, 0⟩).y +
                (strokePoints.getD ((i + 1) % strokePoints.length) ⟨0, 0⟩).y) / 2⟩) := by
  constructor
  · rintro rfl
    rfl
  · intro hne
    have hlen0 : ¬ strokePoints.length = 0 := fun h => hne (List.length_eq_zero.mp h)
    simp only [getSvgPathFromStroke, if_neg hlen0]
    refine ⟨?_, ?_, ?_⟩
    · have hquads : List.countP (fun c => c.isQuad)
          ((List.range' 1 (strokePoints.length - 1)).map (fun i =>
            PathCmd.quad (strokePoints.getD i default)
              ⟨((strokePoints.getD i default).x +
                  (strokePoints.getD ((i + 1) % strokePoints.length) default).x) / 2,
               ((strokePoints.getD i default).y +
                  (strokePoints.getD ((i + 1) % strokePoints.length) default).y) / 2⟩)) =
          strokePoints.length - 1 := by
        rw [List.countP_eq_length.mpr, List.length_map, List.length_range']
        intro c hc
        simp only [List.mem_map] at hc
        obtain ⟨i, _, rfl⟩ := hc
        rfl
      rw [List.countP_append, List.countP_cons, hquads]
      simp [PathCmd.isQuad, List.countP_cons]
    · exact List.getLast?_concat _
    · intro i h1 hiL
      obtain ⟨k, rfl⟩ : ∃ k, i = k + 1 := ⟨i - 1, by omega⟩
      have hklen : k < ((List.range' 1 (strokePoints.length - 1)).map (fun i =>
          PathCmd.quad (strokePoints.getD i default)
            ⟨((strokePoints.getD i default).x +
                (strokePoints.getD ((i + 1) % strokePoints.length) default).x) / 2,
             ((strokePoints.getD i default).y +
                (strokePoints.getD ((i + 1) % strokePoints.length) default).y) / 2⟩)).length := by
        simp only [List.length_map, List.length_range']
        omega
      rw [List.getD_append _ _ _ _ (by
        simp only [List.length_cons, List.length_map, List.length_range']
        omega)]
      rw [List.getD_cons_succ]
      rw [List.getD_eq_getElem _ _ hklen, List.getElem_map, List.getElem_range']
      rw [show 1 + 1 * k = k + 1 from by omega]
      rfl

/-- Witness for C2 at the empty outline and at a concrete 4-point outline. -/
theorem C2_serializer_witness :
    getSvgPathFromStroke [] = [] ∧
    (getSvgPathFromStroke [⟨0, 0⟩, ⟨1, 0⟩, ⟨1, 1⟩, ⟨0, 1⟩]).countP
        (fun c => c.isQuad) = 4 - 1 ∧
    (getSvgPathFromStroke [⟨0, 0⟩, ⟨1, 0⟩, ⟨1, 1⟩, ⟨0, 1⟩]).getD 1
        PathCmd.closePath =
      PathCmd.quad ⟨1, 0⟩ ⟨(1 + 1) / 2, (0 + 1) / 2⟩ := by
  refine ⟨(C2_serializer []).1 rfl, ?_, ?_⟩
  · exact ((C2_serializer [⟨0, 0⟩, ⟨1, 0⟩, ⟨1, 1⟩, ⟨0, 1⟩]).2 (by simp)).1
  · have := ((C2_serializer [⟨0, 0⟩, ⟨1, 0⟩, ⟨1, 1⟩, ⟨0, 1⟩]).2 (by simp)).2.2 1
      (by omega) (by simp)
    simpa [List.getD] using this

/-! ### Claim C9 -/

/-- Claim C9: on pointer-up while drawing, the in-progress stroke is appended
to the history iff it has at least two points; with zero or one points the
history is left unchanged (a silent no-op); the in-progress points are always
cleared. -/
theorem C9_pointer_up_commit (s : CanvasState) (tool : ToolType)
    (settings : StrokeSettings) (hd : s.isDrawing = true) :
    ((handlePointerUp s tool settings).history =
        s.history ++ [{ points := s.currentPoints
                        color := if tool = ToolType.ERASER then "eraser"
                                 else settings.color
                        settings := settings }] ↔ 2 ≤ s.currentPoints.length) ∧
    (s.currentPoints.length < 2 →
      (handlePointerUp s tool settings).history = s.history) ∧
    (handlePointerUp s tool settings).currentPoints = [] := by
  have hmain : handlePointerUp s tool settings = ⟨false, [],
      if 1 < s.currentPoints.length then
        s.history ++ [{ points := s.currentPoints
                        color := if tool = ToolType.ERASER then "eraser"
                                 else settings.color
                        settings := settings }]
      else s.history⟩ := by
    simp only [handlePointerUp, hd, Bool.not_true]
    rfl
  rw [hmain]
  refine ⟨?_, ?_, rfl⟩
  · by_cases hl : 1 < s.currentPoints.length
    · rw [if_pos hl]
      exact ⟨fun _ => by omega, fun _ => rfl⟩
    · rw [if_neg hl]
      constructor
      · intro he
        have hlen := congrArg List.length he
        simp only [List.length_append, List.length_cons, List.length_nil] at hlen
        omega
      · intro h2
        exact absurd h2 (by omega)
  · intro hlt
    rw [if_neg (by omega)]

/-- Witness for C9: a drawing state with a single captured point commits
nothing, and one with two points commits the stroke. -/
theorem C9_pointer_up_commit_witness :
    (handlePointerUp ⟨true, [⟨0, 0, none, none⟩], []⟩ ToolType.PEN
      ⟨2, 0, 0.5, "ink", true⟩).history = [] ∧
    (handlePointerUp ⟨true, [⟨0, 0, none, none⟩, ⟨1, 0, none, none⟩], []⟩
      ToolType.PEN ⟨2, 0, 0.5, "ink", true⟩).history =
      [] ++ [{ points := [⟨0, 0, none, none⟩, ⟨1, 0, none, none⟩]
               color := if ToolType.PEN = ToolType.ERASER then "eraser"
                        else (⟨2, 0, 0.5, "ink", true⟩ : StrokeSettings).color
               settings := ⟨2, 0, 0.5, "ink", true⟩ }] := by
  constructor
  · exact (C9_pointer_up_commit ⟨true, [⟨0, 0, none, none⟩], []⟩ ToolType.PEN
      ⟨2, 0, 0.5, "ink", true⟩ rfl).2.1 (by simp)
  · exact (C9_pointer_up_commit ⟨true, [⟨0, 0, none, none⟩, ⟨1, 0, none, none⟩], []⟩
      ToolType.PEN ⟨2, 0, 0.5, "ink", true⟩ rfl).1.mpr (by simp)

/-! ### Claim C5 -/

/-- Claim C5: for any total point count `N ≥ 3` the taper factor is `0` both
at index `0` and at index `N - 1`; with `taperLength = min 5 (N / 3)` it is
monotonically non-decreasing over the leading taper window (indices below
`taperLength`), non-increasing over the trailing window (in-range indices
above `N - 1 - taperLength`), and equal to `1` everywhere in between. -/
theorem C5_taper_profile (N : ℕ) (hN : 3 ≤ N) :
    taperFactor 0 N = 0 ∧
    taperFactor (N - 1) N = 0 ∧
    (∀ i j, i ≤ j → j < min 5 (N / 3) → taperFactor i N ≤ taperFactor j N) ∧
    (∀ i j, i ≤ j → j ≤ N - 1 → N - 1 - min 5 (N / 3) < i →
      taperFactor j N ≤ taperFactor i N) ∧
    (∀ i, min 5 (N / 3) ≤ i → i ≤ N - 1 - min 5 (N / 3) → taperFactor i N = 1) := by
  have hL1 : 1 ≤ min 5 (N / 3) := by omega
  have hL2 : 2 * min 5 (N / 3) ≤ N - 1 := by omega
  have hLpos : (0 : ℝ) < ((min 5 (N / 3) : ℕ) : ℝ) := by exact_mod_cast hL1
  refine ⟨?_, ?_, ?_, ?_, ?_⟩
  · simp only [taperFactor]
    rw [if_pos (by omega : 0 < min 5 (N / 3))]
    norm_num
  · simp only [taperFactor]
    rw [if_neg (by omega), if_pos (by omega)]
    rw [Nat.cast_sub (by omega : 1 ≤ N)]
    norm_num
  · intro i j hij hjL
    simp only [taperFactor]
    rw [if_pos (by omega : i < min 5 (N / 3)), if_pos hjL]
    have hdiv : (i : ℝ) / ((min 5 (N / 3) : ℕ) : ℝ) ≤
        (j : ℝ) / ((min 5 (N / 3) : ℕ) : ℝ) :=
      (div_le_div_iff_of_pos_right hLpos).mpr (by exact_mod_cast hij)
    have hj1 : (j : ℝ) / ((min 5 (N / 3) : ℕ) : ℝ) ≤ 1 :=
      (div_le_one hLpos).mpr (by exact_mod_cast Nat.le_of_lt hjL)
    have hpow := pow_le_pow_left₀
      (by linarith : (0 : ℝ) ≤ 1 - (j : ℝ) / ((min 5 (N / 3) : ℕ) : ℝ))
      (by linarith : 1 - (j : ℝ) / ((min 5 (N / 3) : ℕ) : ℝ) ≤
        1 - (i : ℝ) / ((min 5 (N / 3) : ℕ) : ℝ)) 3
    linarith
  · intro i j hij hjN hi
    simp only [taperFactor]
    rw [if_neg (by omega : ¬ i < min 5 (N / 3)),
      if_neg (by omega : ¬ j < min 5 (N / 3)), if_pos (by omega), if_pos (by omega)]
    have hcast : (N : ℝ) ≤ ((min 5 (N / 3) : ℕ) : ℝ) + (i : ℝ) + 1 := by
      exact_mod_cast (by omega : N ≤ min 5 (N / 3) + i + 1)
    have hij' : (i : ℝ) ≤ (j : ℝ) := by exact_mod_cast hij
    have hdiv : ((N : ℝ) - 1 - (j : ℝ)) / ((min 5 (N / 3) : ℕ) : ℝ) ≤
        ((N : ℝ) - 1 - (i : ℝ)) / ((min 5 (N / 3) : ℕ) : ℝ) :=
      (div_le_div_iff_of_pos_right hLpos).mpr (by linarith)
    have hti : ((N : ℝ) - 1 - (i : ℝ)) / ((min 5 (N / 3) : ℕ) : ℝ) ≤ 1 :=
      (div_le_one hLpos).mpr (by linarith)
    have hpow := pow_le_pow_left₀
      (by linarith : (0 : ℝ) ≤ 1 - ((N : ℝ) - 1 - (i : ℝ)) / ((min 5 (N / 3) : ℕ) : ℝ))
      (by linarith : 1 - ((N : ℝ) - 1 - (i : ℝ)) / ((min 5 (N / 3) : ℕ) : ℝ) ≤
        1 - ((N : ℝ) - 1 - (j : ℝ)) / ((min 5 (N / 3) : ℕ) : ℝ)) 3
    linarith
  · intro i hiL hiR
    simp only [taperFactor]
    rw [if_neg (by omega), if_neg (by omega)]

/-- Witness for C5 at `N = 9`, whose taper length is `3`. -/
theorem C5_taper_profile_witness :
    taperFactor 0 9 = 0 ∧ taperFactor 8 9 = 0 ∧
    taperFactor 1 9 ≤ taperFactor 2 9 ∧
    taperFactor 7 9 ≤ taperFactor 6 9 ∧
    taperFactor 4 9 = 1 := by
  obtain ⟨h1, h2, h3, h4, h5⟩ := C5_taper_profile 9 (by omega)
  exact ⟨h1, h2, h3 1 2 (by omega) (by omega),
    h4 6 7 (by omega) (by omega) (by omega), h5 4 (by omega) (by omega)⟩

/-! ### Concrete-evaluation helpers -/

theorem vnorm_axis (c : ℝ) (hc : 0 ≤ c) : vnorm ⟨c, 0⟩ = c := by
  unfold vnorm
  rw [show c ^ 2 + (0 : ℝ) ^ 2 = c ^ 2 from by ring, Real.sqrt_sq hc]

theorem normalize_axis (c : ℝ) (hc : 0 < c) : normalize ⟨c, 0⟩ = ⟨1, 0⟩ := by
  rw [normalize, if_neg (by rw [vnorm_axis c hc.le]; exact hc.ne'), vnorm_axis c hc.le]
  simp only [V2.mk.injEq]
  constructor
  · exact div_self hc.ne'
  · exact zero_div c

/-! ### Claim C6 -/

/-- Claim C6: with `thinning = 0` the computed stroke width equals `size`
whatever the pressure, and so — for the nonnegative sizes the settings
prescribe — every outline point whose smoothed direction vector is nonzero
lies at distance exactly `size / 2` from its source input point. -/
theorem C6_thinning_zero (points : List Point) (options : StrokeSettings)
    (hth : options.thinning = 0) (hs : 0 ≤ options.size)
    (hn : 2 ≤ points.length) :
    (∀ p : ℝ, strokeWidth options.size options.thinning p = options.size) ∧
    (∀ i, i < points.length → smoothAt points i ≠ ⟨0, 0⟩ →
      vdist ((getStrokeOutlinePoints points options).getD i ⟨0, 0⟩)
          (pos (points.getD i default)) = options.size / 2 ∧
      vdist ((getStrokeOutlinePoints points options).getD
            (2 * points.length - 1 - i) ⟨0, 0⟩)
          (pos (points.getD i default)) = options.size / 2) := by
  constructor
  · intro p
    rw [hth]
    unfold strokeWidth
    ring
  · intro i hi hsm
    have hnorm1 : vnorm (smoothAt points i) = 1 := by
      unfold smoothAt at hsm ⊢
      exact vnorm_normalize _ (fun h0 => hsm (normalize_of_vnorm_zero _ h0))
    have hoff : vnorm (offsetAt points options.size options.thinning i) =
        options.size / 2 := by
      unfold offsetAt
      rw [vnorm_mul, vnorm_perp, hnorm1, mul_one, hth]
      unfold strokeWidth
      rw [show options.size * (1 - 0 * (1 - smoothedPressureAux points (i + 1))) / 2 =
        options.size / 2 from by ring]
      exact abs_of_nonneg (by linarith)
    exact ⟨by rw [outline_getD_left points options hn i hi, vdist_sub_self, hoff],
      by rw [outline_getD_right points options hn i hi, vdist_add_self, hoff]⟩

/-- Witness for C6 on a concrete horizontal two-point stroke of size `2`. -/
theorem C6_thinning_zero_witness :
    vdist ((getStrokeOutlinePoints [⟨0, 0, none, none⟩, ⟨1, 0, none, none⟩]
          ⟨2, 0, 0.5, "ink", true⟩).getD 0 ⟨0, 0⟩)
        (pos (([⟨0, 0, none, none⟩, ⟨1, 0, none, none⟩] :
          List Point).getD 0 default)) = 2 / 2 := by
  have hdir : dirVec [⟨0, 0, none, none⟩, ⟨1, 0, none, none⟩] 0 = ⟨1, 0⟩ := by
    rw [dirVec, if_pos (by simp)]
    simp only [List.getD_cons_succ, List.getD_cons_zero, pos, sub]
    rw [show (⟨(1 : ℝ) - 0, (0 : ℝ) - 0⟩ : V2) = ⟨1, 0⟩ from by norm_num]
    exact normalize_axis 1 one_pos
  have hsm : smoothAt [⟨0, 0, none, none⟩, ⟨1, 0, none, none⟩] 0 ≠ ⟨0, 0⟩ := by
    unfold smoothAt
    rw [Nat.zero_sub, hdir]
    rw [show add ⟨1, 0⟩ ⟨1, 0⟩ = (⟨2, 0⟩ : V2) from by norm_num [add],
      normalize_axis 2 two_pos]
    intro h
    have := congrArg V2.x h
    norm_num at this
  exact ((C6_thinning_zero [⟨0, 0, none, none⟩, ⟨1, 0, none, none⟩]
    ⟨2, 0, 0.5, "ink", true⟩ rfl (by norm_num) (by simp)).2 0 (by simp) hsm).1

/-! ### The simulated-pressure branch of `getPoint` -/

theorem getPoint_simulated (x y rawPressure t : ℝ) (buf : List Point)
    (hraw : rawPressure = 0 ∨ rawPressure = 0.5) (hbuf : 0 < buf.length) :
    (getPoint x y rawPressure t buf).pressure = some (max 0.1 (min 1
      (1 - min (Real.sqrt ((x - (buf.getD (buf.length - 1) default).x) ^ 2 +
          (y - (buf.getD (buf.length - 1) default).y) ^ 2) /
          (if t - ((buf.getD (buf.length - 1) default).time).getD 0 = 0 then 1
           else t - ((buf.getD (buf.length - 1) default).time).getD 0)) 2.5 / 2.5))) := by
  unfold getPoint
  rw [if_pos hraw, if_pos hbuf]

/-! ### Claim C3 -/

/-- Claim C3: when the raw device pressure is the neutral `0` or `0.5`, the
resolved pressure is `0.5` with no prior points, and otherwise equals
`1 - min(velocity, 2.5) / 2.5` clamped to `[0.1, 1]`, where
`velocity = d / dt` for a nonzero elapsed time `dt` to the last prior point;
any other raw pressure is returned unchanged. -/
theorem C3_pressure_simulation :
    (∀ x y rawPressure t : ℝ, (rawPressure = 0 ∨ rawPressure = 0.5) →
      (getPoint x y rawPressure t []).pressure = some 0.5) ∧
    (∀ (x y rawPressure t : ℝ) (buf : List Point),
      (rawPressure = 0 ∨ rawPressure = 0.5) → 0 < buf.length →
      t - ((buf.getD (buf.length - 1) default).time).getD 0 ≠ 0 →
      (getPoint x y rawPressure t buf).pressure = some (max 0.1 (min 1
        (1 - min (Real.sqrt ((x - (buf.getD (buf.length - 1) default).x) ^ 2 +
            (y - (buf.getD (buf.length - 1) default).y) ^ 2) /
            (t - ((buf.getD (buf.length - 1) default).time).getD 0)) 2.5 / 2.5)))) ∧
    (∀ (x y rawPressure t : ℝ) (buf : List Point),
      rawPressure ≠ 0 → rawPressure ≠ 0.5 →
      (getPoint x y rawPressure t buf).pressure = some rawPressure) := by
  refine ⟨?_, ?_, ?_⟩
  · intro x y p t hp
    unfold getPoint
    rw [if_pos hp, if_neg (by simp)]
  · intro x y p t buf hp hbuf hdt
    rw [getPoint_simulated x y p t buf hp hbuf, if_neg hdt]
  · intro x y p t buf h0 h5
    unfold getPoint
    rw [if_neg (by tauto)]

/-- Witness for C3: empty buffer, a buffered point at distance `1` and
elapsed time `2` (velocity `1/2`, pressure `0.8`), and a genuine device
pressure `0.3` passing through unchanged. -/
theorem C3_pressure_simulation_witness :
    (getPoint 0 0 0 1 []).pressure = some 0.5 ∧
    (getPoint 1 0 0 2 [⟨0, 0, none, some 0⟩]).pressure = some 0.8 ∧
    (getPoint 0 0 0.3 1 []).pressure = some 0.3 := by
  obtain ⟨h1, h2, h3⟩ := C3_pressure_simulation
  refine ⟨h1 0 0 0 1 (Or.inl rfl), ?_, h3 0 0 0.3 1 [] (by norm_num) (by norm_num)⟩
  have h := h2 1 0 0 2 [⟨0, 0, none, some 0⟩] (Or.inl rfl) (by simp)
    (by norm_num [List.getD_cons_zero])
  rw [h]
  norm_num [List.getD_cons_zero, min_def, max_def, Real.sqrt_one]

/-! ### Claim C4 -/

/-- Claim C4 (amended): with a non-empty prior buffer and neutral raw
pressure, the divisor used for the velocity is `t - priorTime` whenever that
difference is nonzero, and `1` exactly when it is zero (the JavaScript
`dt || 1` guard; a missing prior timestamp counts as `priorTime = 0`). -/
theorem C4_velocity_divisor (x y rawPressure t : ℝ) (buf : List Point)
    (hraw : rawPressure = 0 ∨ rawPressure = 0.5) (hbuf : 0 < buf.length) :
    (getPoint x y rawPressure t buf).pressure = some (max 0.1 (min 1
      (1 - min (Real.sqrt ((x - (buf.getD (buf.length - 1) default).x) ^ 2 +
          (y - (buf.getD (buf.length - 1) default).y) ^ 2) /
          (if t - ((buf.getD (buf.length - 1) default).time).getD 0 = 0 then 1
           else t - ((buf.getD (buf.length - 1) default).time).getD 0)) 2.5 / 2.5))) ∧
    (t - ((buf.getD (buf.length - 1) default).time).getD 0 = 0 →
      (getPoint x y rawPressure t buf).pressure = some (max 0.1 (min 1
        (1 - min (Real.sqrt ((x - (buf.getD (buf.length - 1) default).x) ^ 2 +
            (y - (buf.getD (buf.length - 1) default).y) ^ 2) / 1) 2.5 / 2.5)))) := by
  refine ⟨getPoint_simulated x y rawPressure t buf hraw hbuf, fun hdt => ?_⟩
  rw [getPoint_simulated x y rawPressure t buf hraw hbuf, if_pos hdt]

/-- Counterexample to C4 as stated: at distance `1` and elapsed time `1/2`
the code divides by `1/2`, yielding pressure `0.2`, whereas a divisor of
`max(t - priorTime, 1) = 1` would yield `0.6`. -/
theorem C4_velocity_divisor_cex :
    (getPoint 1 0 0 (1/2) [⟨0, 0, none, some 0⟩]).pressure = some 0.2 ∧
    (0.2 : ℝ) ≠ max 0.1 (min 1 (1 - min (Real.sqrt (((1 : ℝ) - 0) ^ 2 +
      ((0 : ℝ) - 0) ^ 2) / max ((1 : ℝ)/2 - 0) 1) 2.5 / 2.5)) := by
  constructor
  · rw [getPoint_simulated 1 0 0 (1/2) [⟨0, 0, none, some 0⟩] (Or.inl rfl) (by simp)]
    norm_num [List.getD_cons_zero, min_def, max_def, Real.sqrt_one]
  · rw [show ((1 : ℝ) - 0) ^ 2 + ((0 : ℝ) - 0) ^ 2 = 1 from by norm_num,
      Real.sqrt_one]
    norm_num [min_def, max_def]

/-- Witness for C4 exercising the `dt = 0` case: identical timestamps divide
by `1`, giving pressure `0.6` at distance `1`. -/
theorem C4_velocity_divisor_witness :
    (getPoint 1 0 0 0 [⟨0, 0, none, some 0⟩]).pressure = some 0.6 := by
  have h := (C4_velocity_divisor 1 0 0 0 [⟨0, 0, none, some 0⟩] (Or.inl rfl)
    (by simp)).2 (by norm_num [List.getD_cons_zero])
  rw [h]
  norm_num [List.getD_cons_zero, min_def, max_def, Real.sqrt_one]

/-! ### Claim C7 -/

/-- Claim C7 (amended): inside `getStrokeOutlinePoints` the pressure applied
at index `i` obeys `p(i) = lerp(prev, taperedPressure(i), 0.5)` with the
previous value updated each iteration; the running value is seeded from the
first point's pressure, and the seed defaults to `0.5` both when that
pressure is absent and when it equals `0` (JavaScript `||`); the outline
points are built from exactly this pressure sequence. -/
theorem C7_pressure_recurrence (points : List Point) (options : StrokeSettings)
    (hn : 2 ≤ points.length) :
    smoothedPressureAux points 0 = seedPressure points ∧
    (∀ i, smoothedPressureAux points (i + 1) =
      lerp (smoothedPressureAux points i) (taperedPressureAt points i) 0.5) ∧
    ((points.getD 0 default).pressure = none → seedPressure points = 0.5) ∧
    (∀ q, (points.getD 0 default).pressure = some q → q ≠ 0 →
      seedPressure points = q) ∧
    (∀ q, (points.getD 0 default).pressure = some q → q = 0 →
      seedPressure points = 0.5) ∧
    (∀ i, i < points.length →
      (getStrokeOutlinePoints points options).getD i ⟨0, 0⟩ =
        sub (pos (points.getD i default))
          (mul (perp (smoothAt points i))
            (strokeWidth options.size options.thinning
              (smoothedPressureAux points (i + 1)) / 2))) := by
  refine ⟨rfl, fun i => rfl, ?_, ?_, ?_, ?_⟩
  · intro h
    unfold seedPressure
    rw [h]
  · intro q hq hq0
    unfold seedPressure
    rw [hq]
    simp [hq0]
  · intro q hq hq0
    unfold seedPressure
    rw [hq]
    simp [hq0]
  · intro i hi
    have h := outline_getD_left points options hn i hi
    simpa [offsetAt] using h

/-- Counterexample to C7 as stated: a present first-point pressure of `0`
seeds the running smoothed pressure with `0.5`, not with `0`. -/
theorem C7_pressure_recurrence_cex :
    seedPressure [⟨0, 0, some 0, none⟩, ⟨1, 0, some 1, none⟩] = 0.5 ∧
    (0.5 : ℝ) ≠ 0 := by
  constructor
  · unfold seedPressure
    simp [List.getD_cons_zero]
  · norm_num

/-- Witness for C7 at a concrete two-point stroke. -/
theorem C7_pressure_recurrence_witness :
    smoothedPressureAux [⟨0, 0, none, none⟩, ⟨1, 0, none, none⟩] 0 =
      seedPressure [⟨0, 0, none, none⟩, ⟨1, 0, none, none⟩] :=
  (C7_pressure_recurrence [⟨0, 0, none, none⟩, ⟨1, 0, none, none⟩]
    ⟨2, 0, 0.5, "ink", true⟩ (by simp)).1

/-! ### Claim C8 -/

theorem sub_zero_offset (v : V2) (c : ℝ) : sub v (mul (perp ⟨0, 0⟩) c) = v := by
  cases v with
  | mk vx vy => simp [perp, mul, sub]

theorem add_zero_offset (v : V2) (c : ℝ) : add v (mul (perp ⟨0, 0⟩) c) = v := by
  cases v with
  | mk vx vy => simp [perp, mul, add]

/-- Claim C8: a zero-length vector normalizes to `(0, 0)` rather than
failing; pressure estimation is total on duplicate points (at zero distance
it returns exactly `1`, a well-defined value in the clamp range, via the
`dt || 1` guard); and an outline point whose smoothed direction vector is the
zero vector coincides with its input point — the `(0, 0)` offset degenerates
to zero width. -/
theorem C8_zero_vector_safety :
    (∀ a : V2, vnorm a = 0 → normalize a = ⟨0, 0⟩) ∧
    (∀ (x y rawPressure t : ℝ) (buf : List Point),
      (rawPressure = 0 ∨ rawPressure = 0.5) → 0 < buf.length →
      x = (buf.getD (buf.length - 1) default).x →
      y = (buf.getD (buf.length - 1) default).y →
      (getPoint x y rawPressure t buf).pressure = some 1) ∧
    (∀ (points : List Point) (options : StrokeSettings), 2 ≤ points.length →
      ∀ i, i < points.length → smoothAt points i = ⟨0, 0⟩ →
        (getStrokeOutlinePoints points options).getD i ⟨0, 0⟩ =
          pos (points.getD i default) ∧
        (getStrokeOutlinePoints points options).getD
            (2 * points.length - 1 - i) ⟨0, 0⟩ =
          pos (points.getD i default)) := by
  refine ⟨normalize_of_vnorm_zero, ?_, ?_⟩
  · intro x y p t buf hp hbuf hx hy
    rw [getPoint_simulated x y p t buf hp hbuf, hx, hy]
    norm_num [Real.sqrt_zero, min_def, max_def]
  · intro points options hn i hi hsm
    constructor
    · rw [outline_getD_left points options hn i hi]
      unfold offsetAt
      rw [hsm, sub_zero_offset]
    · rw [outline_getD_right points options hn i hi]
      unfold offsetAt
      rw [hsm, add_zero_offset]

/-- Witness for C8: the zero vector normalizes to itself, and a repeated
position resolves to pressure `1`. -/
theorem C8_zero_vector_safety_witness :
    normalize ⟨0, 0⟩ = ⟨0, 0⟩ ∧
    (getPoint 0 0 0 5 [⟨0, 0, none, some 0⟩]).pressure = some 1 := by
  obtain ⟨h1, h2, h3⟩ := C8_zero_vector_safety
  refine ⟨h1 ⟨0, 0⟩ ?_, h2 0 0 0 5 [⟨0, 0, none, some 0⟩] (Or.inl rfl) (by simp)
    (by simp [List.getD_cons_zero]) (by simp [List.getD_cons_zero])⟩
  unfold vnorm
  norm_num [Real.sqrt_zero]

end InkFlow
